import Mathlib

/-!
Verification of the StyleCodeGenarator core services against their
natural-language specification.

The development shallowly embeds three components of the repository:

* `QueueService` (src/unnamed/part_000): the serialized FIFO task queue.
  JavaScript's run-to-completion semantics means every synchronous code
  segment between `await` points executes atomically; the queue is therefore
  modelled as a state machine whose two events are the atomic segments of
  the source: a call to `addTask` (which may synchronously start draining),
  and the resumption of `processQueue` after the awaited task settles
  (bookkeeping plus the start of the next iteration of the `while` loop).
* `PLMService.generateStyleCode` (src/plmService.js): the pure sequence-code
  allocator.  JavaScript strings are sequences of UTF-16 units; they are
  modelled as Lean `String`s manipulated through their character lists,
  which agrees with the source on all inputs the service handles.
* `JobService` (src/jobService.js): the in-memory job lifecycle store.
  A JavaScript `Map` preserves insertion order, `set` on an existing key
  keeps its position, and `delete` removes it; the store is modelled as an
  association list with unique keys.  Wall-clock instants (`new Date()`)
  are modelled as explicit `Nat` arguments.
-/

namespace StyleCodeGen

/-! ## QueueService (src/unnamed/part_000)

State of a `QueueService` instance.  The fields `queue`, `isProcessing`,
`total`, `completed`, `failed` and `inProgress` come directly from the
source object.  `running` records the item currently being awaited by the
draining loop (the item shifted off the queue whose `task()` has not yet
settled).  `settled` and `submitted` are observation logs (history
variables): `submitted` records the identifiers in `addTask` call order,
`settled` records, in order, each handle resolution or rejection
(`true` for resolve, `false` for reject). -/
structure QueueState where
  queue : List Nat
  isProcessing : Bool
  running : Option Nat
  total : Nat
  completed : Nat
  failed : Nat
  inProgress : Nat
  settled : List (Nat × Bool)
  submitted : List Nat
deriving Repr, DecidableEq

/-- The state built by the `QueueService` constructor. -/
def initQueue : QueueState :=
  { queue := [], isProcessing := false, running := none,
    total := 0, completed := 0, failed := 0, inProgress := 0,
    settled := [], submitted := [] }

/-- One re-check of the draining loop condition `while (this.queue.length > 0)`:
if an item is pending it is shifted off, `stats.inProgress` is incremented and
its task is started (it becomes the awaited item); otherwise the loop exits
and `isProcessing` is cleared. -/
def beginNext (s : QueueState) : QueueState :=
  match s.queue with
  | [] => { s with isProcessing := false }
  | t :: rest =>
    { s with queue := rest, running := some t, inProgress := s.inProgress + 1 }

/-- The synchronous part of `processQueue()` up to the first `await`:
return immediately when already processing or when the queue is empty,
otherwise set `isProcessing` and start the first loop iteration. -/
def processQueueStart (s : QueueState) : QueueState :=
  if s.isProcessing then s
  else if s.queue.isEmpty then s
  else beginNext { s with isProcessing := true }

/-- `addTask(task, identifier)`: push the item, bump `stats.total`, and kick
`processQueue()` when not already processing.  `id` stands for the generated
queue-item identifier (timestamp plus random suffix in the source). -/
def addTask (s : QueueState) (id : Nat) : QueueState :=
  let s1 := { s with queue := s.queue ++ [id], total := s.total + 1,
                     submitted := s.submitted ++ [id] }
  if s1.isProcessing then s1 else processQueueStart s1

/-- Resumption of the draining loop after the awaited task settles with
outcome `ok`: on success bump `completed`, on failure bump `failed`, in both
cases decrement `inProgress`, resolve or reject that item's handle (logged in
`settled`), and re-check the loop condition.  When no task is awaited there is
no suspended continuation and nothing happens. -/
def settleTask (s : QueueState) (ok : Bool) : QueueState :=
  match s.running with
  | none => s
  | some i =>
    let s1 :=
      if ok then
        { s with completed := s.completed + 1, inProgress := s.inProgress - 1,
                 running := none, settled := s.settled ++ [(i, true)] }
      else
        { s with failed := s.failed + 1, inProgress := s.inProgress - 1,
                 running := none, settled := s.settled ++ [(i, false)] }
    beginNext s1

/-- The atomic events of a queue instance under JavaScript's
run-to-completion semantics. -/
inductive QueueEvent where
  | submit (id : Nat)
  | settle (ok : Bool)
deriving Repr, DecidableEq

/-- Interpretation of one event. -/
def queueStep (s : QueueState) : QueueEvent → QueueState
  | .submit id => addTask s id
  | .settle ok => settleTask s ok

/-- The state reached from a fresh `QueueService` by a trace of events. -/
def runQueue (es : List QueueEvent) : QueueState :=
  es.foldl queueStep initQueue

/-- Inductive invariant of the queue state machine: the submission log
splits as settled ++ in-flight ++ pending, `inProgress` counts the in-flight
item, the counters agree with the logs, `isProcessing` holds exactly while an
item is in flight, and pending items exist only while draining. -/
def QueueInv (s : QueueState) : Prop :=
  s.submitted = s.settled.map Prod.fst ++ s.running.toList ++ s.queue ∧
  s.inProgress = (if s.running.isSome then 1 else 0) ∧
  s.total = s.submitted.length ∧
  s.completed + s.failed = s.settled.length ∧
  s.isProcessing = s.running.isSome ∧
  (s.queue ≠ [] → s.running.isSome = true)

/-! ## PLMService.generateStyleCode (src/plmService.js)

JavaScript strings are sequences of UTF-16 units; the helpers below model
`charAt`/`substring`/`length`/`toUpperCase`/`padStart` on the character list
of a Lean `String` (the source only ever feeds ASCII data through them,
where the two notions of character coincide). -/

/-- JavaScript `s.substring(0, n)` (also `s.charAt(0)` when `n = 1`). -/
def jsTake (s : String) (n : Nat) : String := String.mk (s.data.take n)

/-- JavaScript `s.substring(n)`. -/
def jsDrop (s : String) (n : Nat) : String := String.mk (s.data.drop n)

/-- JavaScript `s.length`. -/
def jsLength (s : String) : Nat := s.data.length

/-- JavaScript `s.toUpperCase()` on ASCII data. -/
def jsToUpper (s : String) : String := String.mk (s.data.map Char.toUpper)

/-- JavaScript `s.padStart(w, c)` for a one-character pad string. -/
def jsPadStart (s : String) (w : Nat) (c : Char) : String :=
  if w ≤ jsLength s then s
  else String.mk (List.replicate (w - jsLength s) c ++ s.data)

/-- Value of a run of decimal digits. -/
def digitsVal (cs : List Char) : Nat :=
  cs.foldl (fun a c => a * 10 + (c.toNat - 48)) 0

/-- JavaScript `parseInt(s, 10)`: skip leading whitespace, accept an optional
sign, then read the maximal leading run of decimal digits; the result is
`NaN` (here `none`) exactly when that run is empty. -/
def parseIntJS (s : String) : Option Int :=
  match s.data.dropWhile Char.isWhitespace with
  | '-' :: rest =>
    let ds := rest.takeWhile Char.isDigit
    if ds.isEmpty then none else some (-(digitsVal ds : Int))
  | '+' :: rest =>
    let ds := rest.takeWhile Char.isDigit
    if ds.isEmpty then none else some ((digitsVal ds : Int))
  | cs =>
    let ds := cs.takeWhile Char.isDigit
    if ds.isEmpty then none else some ((digitsVal ds : Int))

/-- A `Brand`, `Season` or `ProductSubSubCategory` record as selected by
`getStyleDetails` (`$select=Id,Code,Name`; the `Id` plays no role in code
generation). -/
structure NamedEntity where
  code : String
  name : String
deriving Repr, DecidableEq

/-- The target style as consumed by `generateStyleCode`: its expanded
partition entities and its own current `StyleCode` (`null` modelled as
`none`). -/
structure Style where
  brand : NamedEntity
  season : NamedEntity
  subSubCategory : NamedEntity
  styleCode : Option String
deriving Repr, DecidableEq

/-- A peer style returned by `getSimilarStyles`: only its `StyleCode`
matters to the allocator. -/
structure SimilarStyle where
  styleCode : Option String
deriving Repr, DecidableEq

/-- `FIXED_PREFIX_LENGTH` from the source: Brand(1) + Season(4) + "0"(1) +
Category(3).  The source declares this `const` twice with the same value
inside `generateStyleCode` (a redeclaration slip); it is embedded once. -/
def FIXED_PREFIX_LENGTH : Nat := 9

/-- The fixed prefix assembled by `generateStyleCode`:
`Brand.Code.charAt(0).toUpperCase()` + `Season.Name.substring(0,4).toUpperCase()`
+ the literal `"0"` + `ProductSubSubCategory.Code.substring(0,3)` (the category
part is not case-normalized in the source). -/
def fixedPrefix (st : Style) : String :=
  jsToUpper (jsTake st.brand.code 1) ++ jsToUpper (jsTake st.season.name 4)
    ++ "0" ++ jsTake st.subSubCategory.code 3

/-- The sequence value a style code contributes, per the guard used both for
peers and for the target's own code: the code must be present (truthy) and
strictly longer than the fixed prefix, and the substring after the prefix
must `parseInt` to a number. -/
def seqOfCode (c : Option String) : Option Int :=
  match c with
  | none => none
  | some sc =>
    if FIXED_PREFIX_LENGTH < jsLength sc then parseIntJS (jsDrop sc FIXED_PREFIX_LENGTH)
    else none

/-- One iteration of the `maxSequence` scan: replace the accumulator when the
peer's suffix parses to a strictly larger value. -/
def seqStep (m : Int) (p : SimilarStyle) : Int :=
  match seqOfCode p.styleCode with
  | some n => if n > m then n else m
  | none => m

/-- `maxSequence`: the scan over `similarStyles`, starting from 0. -/
def maxSequence (peers : List SimilarStyle) : Int :=
  peers.foldl seqStep 0

/-- The idempotence gate: the target's own code passes the same guard as the
peers and parses to exactly `maxSequence`. -/
def skipUpdate (st : Style) (peers : List SimilarStyle) : Bool :=
  match seqOfCode st.styleCode with
  | some cur => cur == maxSequence peers
  | none => false

/-- The allocator's result object (`PatternSpecNumber` is set to the same
string as `StyleCode`). -/
structure GeneratedCode where
  styleCode : String
  patternSpecNumber : String
deriving Repr, DecidableEq

/-- Embedding of `PLMService.generateStyleCode(style, similarStyles)`:
`null` (no update needed) when the idempotence gate fires, otherwise the
fixed prefix followed by `(maxSequence + 1).toString().padStart(3, '0')`. -/
def generateStyleCode (st : Style) (peers : List SimilarStyle) : Option GeneratedCode :=
  if skipUpdate st peers then none
  else
    let seqStr := jsPadStart (toString (maxSequence peers + 1)) 3 '0'
    let code := fixedPrefix st ++ seqStr
    some { styleCode := code, patternSpecNumber := code }

/-! ## JobService (src/jobService.js) -/

/-- A job record.  `new Date()` instants are modelled as `Nat` arguments
supplied by the caller; `payload`, `result` and `error` are kept as strings
(their structure plays no role in the tracked claims). -/
structure Job where
  id : String
  type : String
  payload : String
  status : String
  createdAt : Nat
  startedAt : Option Nat
  completedAt : Option Nat
  result : Option String
  error : Option String
deriving Repr, DecidableEq

/-- State of a `JobService` instance: the `jobs` `Map` as an association
list in insertion order with unique keys, plus the configured history cap
(`maxJobHistory`, 1000 in the constructor). -/
structure JobServiceState where
  jobs : List (String × Job)
  maxJobHistory : Nat
deriving Repr, DecidableEq

/-- The state built by the `JobService` constructor. -/
def initJobService : JobServiceState := { jobs := [], maxJobHistory := 1000 }

/-- `Map.prototype.set`: overwrite in place when the key exists, append
otherwise. -/
def mapSet (m : List (String × Job)) (k : String) (v : Job) : List (String × Job) :=
  if m.any (fun p => p.1 == k) then
    m.map (fun p => if p.1 == k then (k, v) else p)
  else m ++ [(k, v)]

/-- `Map.prototype.get`, `undefined` as `none`. -/
def mapGet (m : List (String × Job)) (k : String) : Option Job :=
  (m.find? (fun p => p.1 == k)).map Prod.snd

/-- A job in a terminal status. -/
def isTerminal (j : Job) : Bool :=
  j.status == "completed" || j.status == "failed"

/-- The comparator of `cleanupOldJobs` (`a[1].createdAt - b[1].createdAt`):
ascending creation time. -/
def createdLE (a b : String × Job) : Prop :=
  a.2.createdAt ≤ b.2.createdAt

instance : DecidableRel createdLE :=
  fun a b => Nat.decLe a.2.createdAt b.2.createdAt

instance : IsTotal (String × Job) createdLE :=
  ⟨fun a b => Nat.le_total a.2.createdAt b.2.createdAt⟩

instance : IsTrans (String × Job) createdLE :=
  ⟨fun _ _ _ hab hbc => Nat.le_trans hab hbc⟩

/-- `cleanupOldJobs()`: snapshot the entries, sort them by creation time
(JavaScript `Array.prototype.sort` is stable; so is insertion sort), and for
the first `size - maxJobHistory` entries of the sorted snapshot delete those
whose status is terminal.  Deletion from a `Map` preserves the order of the
remaining entries, hence the filter. -/
def cleanupOldJobs (s : JobServiceState) : JobServiceState :=
  let sorted := List.insertionSort createdLE s.jobs
  let toRemove := sorted.length - s.maxJobHistory
  let victims := ((sorted.take toRemove).filter (fun p => isTerminal p.2)).map Prod.fst
  { s with jobs := s.jobs.filter (fun p => !(victims.contains p.1)) }

/-- `createJob(type, payload)`: insert a fresh `pending` job and run the
cleanup when the store now exceeds the cap.  `jobId` stands for the
generated identifier (timestamp plus random suffix in the source) and `now`
for `new Date()`. -/
def createJob (s : JobServiceState) (jobId jobType payload : String) (now : Nat) :
    JobServiceState :=
  let job : Job :=
    { id := jobId, type := jobType, payload := payload, status := "pending",
      createdAt := now, startedAt := none, completedAt := none,
      result := none, error := none }
  let s1 := { s with jobs := mapSet s.jobs jobId job }
  if s1.maxJobHistory < s1.jobs.length then cleanupOldJobs s1 else s1

/-- The optional `data` argument of `updateJobStatus`. -/
structure UpdateData where
  result : Option String
  error : Option String
deriving Repr, DecidableEq

/-- The default `data = \x7b\x7d`. -/
def noData : UpdateData := { result := none, error := none }

/-- The mutation `updateJobStatus` performs on a found job: set the status;
set `startedAt` on `processing` only when unset; on a terminal status set
`completedAt` (unconditionally) and store the result or the error message
(`data.error || 'Unknown error'`). -/
def applyStatus (j : Job) (status : String) (data : UpdateData) (now : Nat) : Job :=
  let j1 := { j with status := status }
  let j2 :=
    if status = "processing" ∧ j1.startedAt = none then
      { j1 with startedAt := some now }
    else j1
  if status = "completed" ∨ status = "failed" then
    let j3 := { j2 with completedAt := some now }
    if status = "completed" then { j3 with result := data.result }
    else { j3 with error := some (data.error.getD "Unknown error") }
  else j2

/-- `updateJobStatus(jobId, status, data)`: warn-and-return when the id is
unknown, otherwise store the mutated job back under the same key. -/
def updateJobStatus (s : JobServiceState) (jobId status : String) (data : UpdateData)
    (now : Nat) : JobServiceState :=
  match mapGet s.jobs jobId with
  | none => s
  | some j => { s with jobs := mapSet s.jobs jobId (applyStatus j status data now) }

/-- The snapshot returned by `getJob`: the job plus the computed `duration`
string. -/
structure JobView where
  job : Job
  duration : Option String
deriving Repr, DecidableEq

/-- `getJob(jobId)`: `null` for an unknown id; otherwise the job with
`duration` computed from `startedAt` to `completedAt || now`; the final
`duration ? duration + 'ms' : null` maps both "never started" and a zero
elapsed time to `null` (0 is falsy). -/
def getJob (s : JobServiceState) (jobId : String) (now : Nat) : Option JobView :=
  match mapGet s.jobs jobId with
  | none => none
  | some j =>
    let dur : Option Nat :=
      match j.startedAt with
      | none => none
      | some st => some (j.completedAt.getD now - st)
    some { job := j,
           duration :=
             match dur with
             | none => none
             | some d => if d = 0 then none else some (toString d ++ "ms") }

/-! ## Concrete instances used by witnesses and counterexamples -/

/-- A job record shorn to the fields the examples vary. -/
def mkJob (id status : String) (created : Nat) : Job :=
  { id := id, type := "stylecode_assignment", payload := "42", status := status,
    createdAt := created, startedAt := none, completedAt := none,
    result := none, error := none }

/-- Witness style for the idempotence claim: its own code already carries
sequence 2, the maximum among its peers. -/
def exC3Style : Style :=
  { brand := { code := "Basic", name := "Basic" },
    season := { code := "S25", name := "FW2025" },
    subSubCategory := { code := "TSHIRT", name := "T-Shirts" },
    styleCode := some "BFW200TSH002" }

/-- Peers for the idempotence witness (maximum sequence 2). -/
def exC3Peers : List SimilarStyle :=
  [{ styleCode := some "BFW200TSH001" }, { styleCode := some "BFW200TSH002" }]

/-- Witness style for the allocation claim: no code assigned yet. -/
def exC4Style : Style :=
  { brand := { code := "Basic", name := "Basic" },
    season := { code := "S25", name := "FW2025" },
    subSubCategory := { code := "TSHIRT", name := "T-Shirts" },
    styleCode := none }

/-- Peers with suffixes 001, 003, 002 after the 9-character prefix. -/
def exC4Peers : List SimilarStyle :=
  [{ styleCode := some "BFW200TSH001" }, { styleCode := some "BFW200TSH003" },
   { styleCode := some "BFW200TSH002" }]

/-- A style whose season name has fewer than 4 characters. -/
def exC9Short : Style :=
  { brand := { code := "Basic", name := "Basic" },
    season := { code := "S", name := "SS" },
    subSubCategory := { code := "TSHIRT", name := "T-Shirts" },
    styleCode := none }

/-- Witness style for the prefix claim. -/
def exC9Style : Style :=
  { brand := { code := "zara", name := "Zara" },
    season := { code := "S25", name := "FW2025" },
    subSubCategory := { code := "TSH123", name := "x" },
    styleCode := none }

/-- A record agreeing with `exC9Style` on the three partition attributes but
differing elsewhere. -/
def exC9Style2 : Style :=
  { brand := { code := "zara", name := "Other" },
    season := { code := "ignored", name := "FW2025" },
    subSubCategory := { code := "TSH123", name := "y" },
    styleCode := some "Q" }

/-- Trace for the eviction counterexample: cap 2; `j1` is created first and
stays `pending`, `j2` is created and completed, and the insert of `j3` pushes
the store over the cap. -/
def exC6 : JobServiceState :=
  createJob
    (updateJobStatus
      (createJob
        (createJob { jobs := [], maxJobHistory := 2 } "j1" "stylecode" "a" 0)
        "j2" "stylecode" "b" 1)
      "j2" "completed" noData 2)
    "j3" "stylecode" "c" 3

/-- A store at cap + 1 whose strictly oldest entry is terminal. -/
def exC6w : JobServiceState :=
  { maxJobHistory := 2,
    jobs := [("a", mkJob "a" "completed" 0), ("b", mkJob "b" "pending" 5),
             ("c", mkJob "c" "pending" 8)] }

/-- The oldest entry of `exC6w`. -/
def exC6wOldest : String × Job := ("a", mkJob "a" "completed" 0)

/-- One job, updated to `completed` at time 5. -/
def exC7a : JobServiceState :=
  updateJobStatus (createJob initJobService "j" "stylecode" "a" 0)
    "j" "completed" noData 5

/-- The same job, updated to `completed` again at time 9. -/
def exC7b : JobServiceState :=
  updateJobStatus exC7a "j" "completed" noData 9

/-- A job that started and completed within the same instant. -/
def exC8 : JobServiceState :=
  updateJobStatus
    (updateJobStatus (createJob initJobService "j" "stylecode" "a" 0)
      "j" "processing" noData 5)
    "j" "completed" noData 5

/-- A completed job with a positive elapsed time. -/
def exC8Job : Job :=
  { mkJob "k" "completed" 0 with startedAt := some 2, completedAt := some 7 }

/-- Store holding `exC8Job`. -/
def exC8w : JobServiceState :=
  { jobs := [("k", exC8Job)], maxJobHistory := 1000 }

end StyleCodeGen

namespace StyleCodeGen

theorem queueInv_init : QueueInv initQueue := by
  refine ⟨rfl, rfl, rfl, rfl, rfl, ?_⟩
  intro h
  exact absurd rfl h

theorem queueInv_addTask (s : QueueState) (id : Nat) (h : QueueInv s) :
    QueueInv (addTask s id) := by
  obtain ⟨h1, h2, h3, h4, h5, h6⟩ := h
  unfold addTask processQueueStart beginNext
  by_cases hp : s.isProcessing
  · have hr : s.running.isSome = true := by rw [← h5]; exact hp
    simp only [hp, if_true]
    refine ⟨?_, ?_, ?_, ?_, ?_, ?_⟩
    · simp [h1, List.append_assoc]
    · exact h2
    · simp [h3]
    · exact h4
    · exact hr.symm
    · intro _; exact hr
  · have hr : s.running.isSome = false := by
      rw [← h5]; simpa using hp
    have hrn : s.running = none := by
      cases hq : s.running with
      | none => rfl
      | some i => rw [hq] at hr; simp at hr
    have hq0 : s.queue = [] := by
      by_contra hq
      have := h6 hq
      rw [hr] at this
      exact Bool.false_ne_true this
    simp only [hp, if_false, Bool.false_eq_true]
    simp only [hq0, List.nil_append, List.isEmpty_cons, if_false, Bool.false_eq_true]
    refine ⟨?_, ?_, ?_, ?_, ?_, ?_⟩
    · simp [h1, hq0, hrn]
    · simp [h2, hr, hrn]
    · simp [h3]
    · exact h4
    · simp
    · intro _; simp

theorem queueInv_settleTask (s : QueueState) (ok : Bool) (h : QueueInv s) :
    QueueInv (settleTask s ok) := by
  obtain ⟨h1, h2, h3, h4, h5, h6⟩ := h
  unfold settleTask beginNext
  cases hq : s.running with
  | none => exact ⟨h1, h2, h3, h4, h5, h6⟩
  | some i =>
    rw [hq] at h1 h2 h5
    have hip : s.inProgress = 1 := by simpa using h2
    have hproc : s.isProcessing = true := by simpa using h5
    cases ok with
    | true =>
      simp only [if_true]
      cases hqq : s.queue with
      | nil =>
        refine ⟨?_, ?_, ?_, ?_, ?_, ?_⟩
        · simp [h1, hqq]
        · simp [hip]
        · simp [h3]
        · simp only [List.length_append, List.length_cons, List.length_nil]; omega
        · simp
        · intro hc; simp at hc
      | cons t rest =>
        refine ⟨?_, ?_, ?_, ?_, ?_, ?_⟩
        · simp [h1, hqq]
        · simp [hip]
        · simp [h3]
        · simp only [List.length_append, List.length_cons, List.length_nil]; omega
        · simp [hproc]
        · intro _; simp
    | false =>
      simp only [Bool.false_eq_true, if_false]
      cases hqq : s.queue with
      | nil =>
        refine ⟨?_, ?_, ?_, ?_, ?_, ?_⟩
        · simp [h1, hqq]
        · simp [hip]
        · simp [h3]
        · simp only [List.length_append, List.length_cons, List.length_nil]; omega
        · simp
        · intro hc; simp at hc
      | cons t rest =>
        refine ⟨?_, ?_, ?_, ?_, ?_, ?_⟩
        · simp [h1, hqq]
        · simp [hip]
        · simp [h3]
        · simp only [List.length_append, List.length_cons, List.length_nil]; omega
        · simp [hproc]
        · intro _; simp

theorem queueInv_step (s : QueueState) (e : QueueEvent) (h : QueueInv s) :
    QueueInv (queueStep s e) := by
  cases e with
  | submit id => exact queueInv_addTask s id h
  | settle ok => exact queueInv_settleTask s ok h

theorem queueInv_foldl (es : List QueueEvent) :
    ∀ s : QueueState, QueueInv s → QueueInv (es.foldl queueStep s) := by
  induction es with
  | nil => intro s h; exact h
  | cons e es ih =>
    intro s h
    exact ih (queueStep s e) (queueInv_step s e h)

theorem queueInv_run (es : List QueueEvent) : QueueInv (runQueue es) :=
  queueInv_foldl es initQueue queueInv_init

/-- Claim C1: for every sequence of operations submitted to the task queue
via `addTask`, under any interleaving of submissions and drain steps, the
order in which the returned handles are resolved or rejected equals the
submission order: in every reachable state the resolution log is a prefix of
the submission log (the items drain strictly head-first). -/
theorem queue_fifo_order (es : List QueueEvent) :
    ∃ rest, (runQueue es).settled.map Prod.fst ++ rest = (runQueue es).submitted := by
  obtain ⟨h1, -, -, -, -, -⟩ := queueInv_run es
  refine ⟨(runQueue es).running.toList ++ (runQueue es).queue, ?_⟩
  rw [h1]
  exact (List.append_assoc _ _ _).symm

/-- Claim C2: in every reachable state of a task queue instance, under any
interleaving of submissions and drain steps, at most one submitted operation
is executing: the `inProgress` counter (incremented when an operation starts,
decremented when it settles) never exceeds 1. -/
theorem queue_at_most_one_in_flight (es : List QueueEvent) :
    (runQueue es).inProgress ≤ 1 := by
  obtain ⟨-, h2, -, -, -, -⟩ := queueInv_run es
  rw [h2]
  split <;> omega

/-- Claim C10: in every reachable state of a task queue instance (no clear or
resetStats modelled), `total = completed + failed + inProgress + queue size`;
the invariant is preserved by every submission and every completed drain
iteration, on both the success and failure branches. -/
theorem queue_stats_conservation (es : List QueueEvent) :
    (runQueue es).total
      = (runQueue es).completed + (runQueue es).failed
        + (runQueue es).inProgress + (runQueue es).queue.length := by
  obtain ⟨h1, h2, h3, h4, -, -⟩ := queueInv_run es
  rw [h3, h1]
  cases hr : (runQueue es).running with
  | none =>
    rw [hr] at h2
    simp only [Option.isSome_none, Bool.false_eq_true, if_false] at h2
    simp only [Option.toList_none, List.length_append, List.length_map,
      List.length_nil] at *
    omega
  | some i =>
    rw [hr] at h2
    simp only [Option.isSome_some, if_true] at h2
    simp only [Option.toList_some, List.length_append, List.length_map,
      List.length_cons, List.length_nil] at *
    omega

/-- Claim C5: when the operation in flight fails, the queue rejects only
that operation's handle with its own outcome and proceeds to the next queued
item: `failed` is incremented, `completed` is untouched, exactly one
rejection is appended to the resolution log, the next queued item
immediately starts executing, and it can still settle successfully. -/
theorem queue_failure_isolation (es : List QueueEvent) (i t : Nat) (q : List Nat)
    (h1 : (runQueue es).running = some i)
    (h2 : (runQueue es).queue = t :: q) :
    (settleTask (runQueue es) false).settled = (runQueue es).settled ++ [(i, false)] ∧
    (settleTask (runQueue es) false).failed = (runQueue es).failed + 1 ∧
    (settleTask (runQueue es) false).completed = (runQueue es).completed ∧
    (settleTask (runQueue es) false).running = some t ∧
    (settleTask (runQueue es) false).queue = q ∧
    (settleTask (settleTask (runQueue es) false) true).settled
      = (runQueue es).settled ++ [(i, false), (t, true)] := by
  simp only [settleTask, beginNext, h1, h2, Bool.false_eq_true, if_false, if_true]
  refine ⟨trivial, trivial, trivial, trivial, trivial, ?_⟩
  cases q <;> simp

/-- Witness for C5: after two submissions the first item is in flight and the
second is queued; failing the first matches the theorem's conclusion. -/
theorem queue_failure_isolation_witness :
    (runQueue [QueueEvent.submit 1, QueueEvent.submit 2]).running = some 1 ∧
    (runQueue [QueueEvent.submit 1, QueueEvent.submit 2]).queue = [2] ∧
    ((settleTask (runQueue [QueueEvent.submit 1, QueueEvent.submit 2]) false).settled
        = (runQueue [QueueEvent.submit 1, QueueEvent.submit 2]).settled ++ [(1, false)] ∧
      (settleTask (runQueue [QueueEvent.submit 1, QueueEvent.submit 2]) false).failed
        = (runQueue [QueueEvent.submit 1, QueueEvent.submit 2]).failed + 1 ∧
      (settleTask (runQueue [QueueEvent.submit 1, QueueEvent.submit 2]) false).completed
        = (runQueue [QueueEvent.submit 1, QueueEvent.submit 2]).completed ∧
      (settleTask (runQueue [QueueEvent.submit 1, QueueEvent.submit 2]) false).running
        = some 2 ∧
      (settleTask (runQueue [QueueEvent.submit 1, QueueEvent.submit 2]) false).queue
        = [] ∧
      (settleTask (settleTask (runQueue [QueueEvent.submit 1, QueueEvent.submit 2]) false)
          true).settled
        = (runQueue [QueueEvent.submit 1, QueueEvent.submit 2]).settled
            ++ [(1, false), (2, true)]) :=
  ⟨by decide, by decide,
   queue_failure_isolation [QueueEvent.submit 1, QueueEvent.submit 2] 1 2 []
     (by decide) (by decide)⟩

/-! ### Properties of the maxSequence scan -/

theorem seqStep_le (m : Int) (p : SimilarStyle) : m ≤ seqStep m p := by
  unfold seqStep
  cases seqOfCode p.styleCode with
  | none => exact le_refl m
  | some n =>
    dsimp only
    split <;> omega

theorem seqStep_parsed_le (m : Int) (p : SimilarStyle) (n : Int)
    (h : seqOfCode p.styleCode = some n) : n ≤ seqStep m p := by
  unfold seqStep
  rw [h]
  dsimp only
  split <;> omega

theorem foldl_seqStep_le (l : List SimilarStyle) :
    ∀ m : Int, m ≤ l.foldl seqStep m := by
  induction l with
  | nil => intro m; exact le_refl m
  | cons p l ih =>
    intro m
    exact le_trans (seqStep_le m p) (ih (seqStep m p))

theorem foldl_seqStep_ub (l : List SimilarStyle) :
    ∀ (m : Int) (p : SimilarStyle), p ∈ l → ∀ n : Int,
      seqOfCode p.styleCode = some n → n ≤ l.foldl seqStep m := by
  induction l with
  | nil => intro m p hp; exact absurd hp (List.not_mem_nil p)
  | cons q l ih =>
    intro m p hp n hn
    rw [List.foldl_cons]
    rcases List.mem_cons.mp hp with h | h
    · subst h
      exact le_trans (seqStep_parsed_le m p n hn) (foldl_seqStep_le l (seqStep m p))
    · exact ih (seqStep m q) p h n hn

theorem foldl_seqStep_attained (l : List SimilarStyle) :
    ∀ m : Int, l.foldl seqStep m = m ∨
      ∃ p ∈ l, seqOfCode p.styleCode = some (l.foldl seqStep m) := by
  induction l with
  | nil => intro m; exact Or.inl rfl
  | cons q l ih =>
    intro m
    rw [List.foldl_cons]
    rcases ih (seqStep m q) with h | ⟨p, hp, hn⟩
    · rw [h]
      unfold seqStep
      cases hq : seqOfCode q.styleCode with
      | none => exact Or.inl rfl
      | some n =>
        dsimp only
        by_cases hc : n > m
        · rw [if_pos hc]
          exact Or.inr ⟨q, List.mem_cons_self q l, hq⟩
        · rw [if_neg hc]
          exact Or.inl rfl
    · exact Or.inr ⟨p, List.mem_cons_of_mem q hp, hn⟩

/-- Claim C3: when the target's own current code passes the same guard as
the peers (present, strictly longer than the prefix, suffix parses) and its
value equals the `maxSequence` computed over the full peer list, the
allocator returns `null` (no update needed); and since it is pure, calling
it twice on the same inputs is the same call. -/
theorem allocator_idempotent_skip (st : Style) (peers : List SimilarStyle)
    (h : seqOfCode st.styleCode = some (maxSequence peers)) :
    generateStyleCode st peers = none ∧
    generateStyleCode st peers = generateStyleCode st peers := by
  have hskip : skipUpdate st peers = true := by
    unfold skipUpdate
    rw [h]
    simp
  refine ⟨?_, rfl⟩
  unfold generateStyleCode
  rw [hskip]
  rfl

/-- Witness for C3: a style already carrying suffix 002, the maximum among
its peers. -/
theorem allocator_idempotent_skip_witness :
    seqOfCode exC3Style.styleCode = some (maxSequence exC3Peers) ∧
    (generateStyleCode exC3Style exC3Peers = none ∧
     generateStyleCode exC3Style exC3Peers = generateStyleCode exC3Style exC3Peers) :=
  ⟨by decide, allocator_idempotent_skip exC3Style exC3Peers (by decide)⟩

/-- Claim C4: when the idempotence short-circuit does not apply, the
allocator returns `fixedPrefix ++ zeroPad(maxSequence + 1)` with the derived
`PatternSpecNumber` equal to the code, where `maxSequence` is an upper bound
of every parsed peer suffix, is nonnegative, and is 0 or attained by some
peer (peers failing the guard contribute nothing). -/
theorem allocator_next_code (st : Style) (peers : List SimilarStyle)
    (h : skipUpdate st peers = false) :
    generateStyleCode st peers
      = some { styleCode :=
                 fixedPrefix st ++ jsPadStart (toString (maxSequence peers + 1)) 3 '0',
               patternSpecNumber :=
                 fixedPrefix st ++ jsPadStart (toString (maxSequence peers + 1)) 3 '0' } ∧
    (∀ p ∈ peers, ∀ n : Int, seqOfCode p.styleCode = some n → n ≤ maxSequence peers) ∧
    0 ≤ maxSequence peers ∧
    (maxSequence peers = 0 ∨
      ∃ p ∈ peers, seqOfCode p.styleCode = some (maxSequence peers)) := by
  refine ⟨?_, ?_, ?_, ?_⟩
  · unfold generateStyleCode
    rw [h]
    rfl
  · intro p hp n hn
    exact foldl_seqStep_ub peers 0 p hp n hn
  · exact foldl_seqStep_le peers 0
  · exact foldl_seqStep_attained peers 0

/-- Witness for C4: peers with suffixes 001, 003, 002 after a fixed
9-character prefix; the allocator returns suffix 004. -/
theorem allocator_next_code_witness :
    skipUpdate exC4Style exC4Peers = false ∧
    (generateStyleCode exC4Style exC4Peers
        = some { styleCode :=
                   fixedPrefix exC4Style
                     ++ jsPadStart (toString (maxSequence exC4Peers + 1)) 3 '0',
                 patternSpecNumber :=
                   fixedPrefix exC4Style
                     ++ jsPadStart (toString (maxSequence exC4Peers + 1)) 3 '0' } ∧
      (∀ p ∈ exC4Peers, ∀ n : Int,
          seqOfCode p.styleCode = some n → n ≤ maxSequence exC4Peers) ∧
      0 ≤ maxSequence exC4Peers ∧
      (maxSequence exC4Peers = 0 ∨
        ∃ p ∈ exC4Peers, seqOfCode p.styleCode = some (maxSequence exC4Peers))) ∧
    (generateStyleCode exC4Style exC4Peers).map GeneratedCode.styleCode
      = some "BFW200TSH004" :=
  ⟨by decide, allocator_next_code exC4Style exC4Peers (by decide), by decide⟩

/-! ### The fixed prefix -/

theorem stringData_append (s t : String) : (s ++ t).data = s.data ++ t.data := by
  cases s
  cases t
  rfl

theorem stringData_mk (l : List Char) : (String.mk l).data = l := rfl

/-- Claim C9 counterexample: a record whose season name has only 2
characters yields a 7-character prefix, so the prefix length is not a fixed
9 for every record. -/
theorem prefix_length_cex : jsLength (fixedPrefix exC9Short) ≠ 9 := by decide

/-- Claim C9 (amended): provided the brand code is nonempty, the season name
has at least 4 characters and the category code at least 3, the fixed prefix
has length exactly 9 (brand initial, 4 season characters, the literal 0,
3 category characters, case-normalized per field), and it depends only on
the three partition attributes. -/
theorem prefix_length_amended (st st2 : Style)
    (h1 : 1 ≤ jsLength st.brand.code) (h2 : 4 ≤ jsLength st.season.name)
    (h3 : 3 ≤ jsLength st.subSubCategory.code)
    (e1 : st2.brand.code = st.brand.code) (e2 : st2.season.name = st.season.name)
    (e3 : st2.subSubCategory.code = st.subSubCategory.code) :
    jsLength (fixedPrefix st) = 9 ∧ fixedPrefix st2 = fixedPrefix st := by
  constructor
  · unfold jsLength at h1 h2 h3 ⊢
    unfold fixedPrefix jsToUpper jsTake
    simp only [stringData_append, stringData_mk, List.length_append,
      List.length_map, List.length_take, List.length_cons, List.length_nil]
    omega
  · unfold fixedPrefix
    rw [e1, e2, e3]

/-- Witness for C9: two records sharing the partition attributes. -/
theorem prefix_length_amended_witness :
    1 ≤ jsLength exC9Style.brand.code ∧ 4 ≤ jsLength exC9Style.season.name ∧
    3 ≤ jsLength exC9Style.subSubCategory.code ∧
    exC9Style2.brand.code = exC9Style.brand.code ∧
    exC9Style2.season.name = exC9Style.season.name ∧
    exC9Style2.subSubCategory.code = exC9Style.subSubCategory.code ∧
    (jsLength (fixedPrefix exC9Style) = 9 ∧
     fixedPrefix exC9Style2 = fixedPrefix exC9Style) :=
  ⟨by decide, by decide, by decide, rfl, rfl, rfl,
   prefix_length_amended exC9Style exC9Style2 (by decide) (by decide) (by decide)
     rfl rfl rfl⟩

/-! ### JobService lemmas -/

theorem key_eq_of_mem (l : List (String × Job)) (h : (l.map Prod.fst).Nodup) :
    ∀ p ∈ l, ∀ q ∈ l, p.1 = q.1 → p = q := by
  induction l with
  | nil => intro p hp; exact absurd hp (List.not_mem_nil p)
  | cons a l ih =>
    intro p hp q hq hpq
    simp only [List.map_cons, List.nodup_cons] at h
    obtain ⟨ha, hnd⟩ := h
    rcases List.mem_cons.mp hp with rfl | hp2
    · rcases List.mem_cons.mp hq with rfl | hq2
      · rfl
      · exact absurd (hpq ▸ List.mem_map_of_mem Prod.fst hq2) ha
    · rcases List.mem_cons.mp hq with rfl | hq2
      · exact absurd (hpq ▸ List.mem_map_of_mem Prod.fst hp2) ha
      · exact ih hnd p hp2 q hq2 hpq

theorem filter_key_length (l : List (String × Job)) (p : String × Job)
    (h : (l.map Prod.fst).Nodup) (hp : p ∈ l) :
    (l.filter (fun q => !(q.1 == p.1))).length + 1 = l.length := by
  induction l with
  | nil => exact absurd hp (List.not_mem_nil p)
  | cons a l ih =>
    simp only [List.map_cons, List.nodup_cons] at h
    obtain ⟨ha, hnd⟩ := h
    rcases List.mem_cons.mp hp with rfl | hp2
    · have hdrop : (p.1 == p.1) = true := beq_self_eq_true p.1
      rw [List.filter_cons]
      simp only [hdrop, Bool.not_true, Bool.false_eq_true, if_false]
      have hkeep : l.filter (fun q => !(q.1 == p.1)) = l := by
        refine List.filter_eq_self.mpr ?_
        intro q hq
        have hne : q.1 ≠ p.1 := by
          intro he
          exact ha (he ▸ List.mem_map_of_mem Prod.fst hq)
        simp [hne]
      rw [hkeep]
      simp
    · have hne : a.1 ≠ p.1 := by
        intro he
        exact ha (he ▸ List.mem_map_of_mem Prod.fst hp2)
      rw [List.filter_cons]
      simp only [hne, beq_eq_false_iff_ne.mpr hne, Bool.not_false, if_true]
      simp only [List.length_cons]
      rw [← ih hnd hp2]

theorem insertionSort_head_min (l : List (String × Job)) (p : String × Job)
    (hp : p ∈ l) (hmin : ∀ q ∈ l, q ≠ p → p.2.createdAt < q.2.createdAt) :
    ∃ rest, List.insertionSort createdLE l = p :: rest := by
  have hperm := List.perm_insertionSort createdLE l
  have hsorted := List.sorted_insertionSort createdLE l
  cases hsort : List.insertionSort createdLE l with
  | nil =>
    rw [hsort] at hperm
    exact absurd (hperm.symm.mem_iff.mp hp) (List.not_mem_nil p)
  | cons h t =>
    rw [hsort] at hperm hsorted
    by_cases hhp : h = p
    · exact ⟨t, by rw [hhp]⟩
    · have hhl : h ∈ l := hperm.mem_iff.mp (List.mem_cons_self h t)
      have hpt : p ∈ t := by
        rcases List.mem_cons.mp (hperm.mem_iff.mpr hp) with he | h2
        · exact absurd he.symm hhp
        · exact h2
      have hle : createdLE h p := List.rel_of_sorted_cons hsorted p hpt
      have hlt := hmin h hhl hhp
      unfold createdLE at hle
      omega

theorem contains_singleton (a b : String) : ([a].contains b) = (b == a) := by
  cases h : b == a <;> simp_all [List.contains]

/-- Claim C6 counterexample: with a cap of 2, after three inserts where the
oldest job `j1` is still pending and `j2` is completed, the store holds a
terminal job yet nothing is evicted: the size stays at 3 instead of
settling at the cap. -/
theorem eviction_cex :
    exC6.maxJobHistory = 2 ∧ exC6.jobs.length = 3 ∧
    (mapGet exC6.jobs "j1").map Job.status = some "pending" ∧
    (mapGet exC6.jobs "j2").map Job.status = some "completed" := by
  refine ⟨by decide, by decide, by decide, by decide⟩

/-- Claim C6 (amended): when the store stands at cap + 1, the cleanup
examines only the single oldest-created entry `p`: if `p` is terminal it is
evicted (and only it), and the size settles at the cap; if `p` is
non-terminal nothing at all is evicted and the store stays above the cap;
in every case no non-terminal job is ever evicted. -/
theorem eviction_amended (s : JobServiceState) (p : String × Job)
    (hkeys : (s.jobs.map Prod.fst).Nodup)
    (hlen : s.jobs.length = s.maxJobHistory + 1)
    (hp : p ∈ s.jobs)
    (hmin : ∀ q ∈ s.jobs, q ≠ p → p.2.createdAt < q.2.createdAt) :
    (isTerminal p.2 = true →
       (cleanupOldJobs s).jobs = s.jobs.filter (fun q => !(q.1 == p.1)) ∧
       (cleanupOldJobs s).jobs.length = s.maxJobHistory) ∧
    (isTerminal p.2 = false → cleanupOldJobs s = s) ∧
    (∀ q ∈ s.jobs, isTerminal q.2 = false → q ∈ (cleanupOldJobs s).jobs) := by
  obtain ⟨rest, hsort⟩ := insertionSort_head_min s.jobs p hp hmin
  have hslen : (List.insertionSort createdLE s.jobs).length = s.jobs.length :=
    (List.perm_insertionSort createdLE s.jobs).length_eq
  have htr : (List.insertionSort createdLE s.jobs).length - s.maxJobHistory = 1 := by
    rw [hslen, hlen]
    omega
  have htake :
      (List.insertionSort createdLE s.jobs).take
        ((List.insertionSort createdLE s.jobs).length - s.maxJobHistory) = [p] := by
    rw [htr, hsort]
    rfl
  have hclean : (cleanupOldJobs s).jobs
      = s.jobs.filter (fun q =>
          !((([p].filter (fun r => isTerminal r.2)).map Prod.fst).contains q.1)) := by
    simp only [cleanupOldJobs]
    rw [htake]
  cases hterm : isTerminal p.2 with
  | true =>
    have hvict : ([p].filter (fun r => isTerminal r.2)).map Prod.fst = [p.1] := by
      simp [List.filter_cons, hterm]
    rw [hvict] at hclean
    have hfilter : (cleanupOldJobs s).jobs = s.jobs.filter (fun q => !(q.1 == p.1)) := by
      rw [hclean]
      refine List.filter_congr ?_
      intro q _
      rw [contains_singleton]
    refine ⟨?_, ?_, ?_⟩
    · intro _
      refine ⟨hfilter, ?_⟩
      rw [hfilter]
      have hfl := filter_key_length s.jobs p hkeys hp
      omega
    · intro hc
      exact Bool.noConfusion hc
    · intro q hq hqterm
      rw [hfilter]
      refine List.mem_filter.mpr ⟨hq, ?_⟩
      have hqp : q ≠ p := by
        intro he
        rw [he, hterm] at hqterm
        cases hqterm
      have hne : q.1 ≠ p.1 := by
        intro he
        exact hqp (key_eq_of_mem s.jobs hkeys q hq p hp he)
      simp [beq_eq_false_iff_ne.mpr hne]
  | false =>
    have hvict : ([p].filter (fun r => isTerminal r.2)).map Prod.fst = [] := by
      simp [List.filter_cons, hterm]
    rw [hvict] at hclean
    have hfilter : (cleanupOldJobs s).jobs = s.jobs := by
      rw [hclean]
      refine List.filter_eq_self.mpr ?_
      intro q _
      rfl
    have hid : cleanupOldJobs s = s := by
      calc cleanupOldJobs s
          = { jobs := (cleanupOldJobs s).jobs, maxJobHistory := s.maxJobHistory } := rfl
        _ = { jobs := s.jobs, maxJobHistory := s.maxJobHistory } := by rw [hfilter]
        _ = s := rfl
    refine ⟨?_, ?_, ?_⟩
    · intro hc
      exact Bool.noConfusion hc
    · intro _
      exact hid
    · intro q hq _
      rw [hfilter]
      exact hq

/-- Witness for C6 (amended): a store at cap + 1 whose strictly oldest
entry is terminal. -/
theorem eviction_amended_witness :
    (exC6w.jobs.map Prod.fst).Nodup ∧
    exC6w.jobs.length = exC6w.maxJobHistory + 1 ∧
    exC6wOldest ∈ exC6w.jobs ∧
    (∀ q ∈ exC6w.jobs, q ≠ exC6wOldest →
       exC6wOldest.2.createdAt < q.2.createdAt) ∧
    ((isTerminal exC6wOldest.2 = true →
        (cleanupOldJobs exC6w).jobs
          = exC6w.jobs.filter (fun q => !(q.1 == exC6wOldest.1)) ∧
        (cleanupOldJobs exC6w).jobs.length = exC6w.maxJobHistory) ∧
     (isTerminal exC6wOldest.2 = false → cleanupOldJobs exC6w = exC6w) ∧
     (∀ q ∈ exC6w.jobs, isTerminal q.2 = false →
        q ∈ (cleanupOldJobs exC6w).jobs)) :=
  ⟨by decide, by decide, by decide, by decide,
   eviction_amended exC6w exC6wOldest (by decide) (by decide) (by decide) (by decide)⟩

/-- Claim C7 counterexample: updating a job to `completed` at time 5 and
then to `completed` again at time 9 changes `completedAt` from 5 to 9, so a
terminal job is still mutated and `completedAt` is not set exactly once. -/
theorem jobstatus_cex :
    (mapGet exC7a.jobs "j").map Job.completedAt = some (some 5) ∧
    (mapGet exC7b.jobs "j").map Job.completedAt = some (some 9) :=
  ⟨by decide, by decide⟩

/-- Claim C7 (amended): `startedAt` is set exactly once, on the first
transition into `processing` (a second `processing` update leaves it
unchanged); but `completedAt` is overwritten by every transition into
`completed` or `failed`, so updates after a terminal status still mutate
the job. -/
theorem jobstatus_amended (j : Job) (d1 d2 : UpdateData) (n1 n2 : Nat) :
    (applyStatus j "processing" d1 n1).startedAt
        = (if j.startedAt = none then some n1 else j.startedAt) ∧
    (applyStatus (applyStatus j "processing" d1 n1) "processing" d2 n2).startedAt
        = (applyStatus j "processing" d1 n1).startedAt ∧
    (applyStatus j "completed" d1 n1).completedAt = some n1 ∧
    (applyStatus j "failed" d1 n1).completedAt = some n1 := by
  have hpc : ¬(("processing" : String) = "completed" ∨ ("processing" : String) = "failed") :=
    by decide
  have hcc : (("completed" : String) = "completed" ∨ ("completed" : String) = "failed") :=
    by decide
  have hff : (("failed" : String) = "completed" ∨ ("failed" : String) = "failed") :=
    by decide
  refine ⟨?_, ?_, ?_, ?_⟩
  · cases hj : j.startedAt <;> simp [applyStatus, hpc, hj]
  · cases hj : j.startedAt <;> simp [applyStatus, hpc, hj]
  · simp [applyStatus, hcc]
  · simp [applyStatus, hff]

/-- Claim C8 counterexample: a job that started at 5 and completed at 5 has
started, yet its snapshot `duration` is `null` (0 is falsy), so `duration`
is not `null` exactly when the job never started. -/
theorem duration_cex :
    (getJob exC8 "j" 10).map JobView.duration = some none ∧
    (mapGet exC8.jobs "j").map Job.startedAt = some (some 5) :=
  ⟨by decide, by decide⟩

/-- Claim C8 (amended): `get` returns not-found exactly for unknown ids; a
returned snapshot carries the stored job; its `duration` is absent exactly
when the job never started or when the elapsed time from `startedAt` to
`completedAt` (to `now` while still running) is zero; and when that elapsed
time is positive, `duration` renders it in milliseconds. -/
theorem duration_amended (s : JobServiceState) (id : String) (now : Nat) :
    (getJob s id now = none ↔ mapGet s.jobs id = none) ∧
    (∀ v : JobView, getJob s id now = some v →
       mapGet s.jobs id = some v.job ∧
       (v.duration = none ↔ (v.job.startedAt = none ∨
          ∃ st, v.job.startedAt = some st ∧ v.job.completedAt.getD now ≤ st)) ∧
       (∀ st, v.job.startedAt = some st → st < v.job.completedAt.getD now →
          v.duration = some (toString (v.job.completedAt.getD now - st) ++ "ms"))) := by
  cases hm : mapGet s.jobs id with
  | none =>
    constructor
    · simp [getJob, hm]
    · intro v hv
      simp [getJob, hm] at hv
  | some j =>
    constructor
    · simp [getJob, hm]
    · intro v hv
      have hv2 : v = { job := j, duration :=
          match (match j.startedAt with
                 | none => none
                 | some st => some (j.completedAt.getD now - st) : Option Nat) with
          | none => none
          | some d => if d = 0 then none else some (toString d ++ "ms") } := by
        simp only [getJob, hm, Option.some_inj] at hv
        exact hv.symm
      subst hv2
      dsimp only
      cases hst : j.startedAt with
      | none =>
        simp only [hst]
        refine ⟨trivial, by simp, ?_⟩
        intro st hvst hlt
        exact Option.noConfusion hvst
      | some st0 =>
        simp only [hst]
        by_cases hz : j.completedAt.getD now - st0 = 0
        · rw [if_pos hz]
          refine ⟨trivial, ?_, ?_⟩
          · constructor
            · intro _
              exact Or.inr ⟨st0, rfl, by omega⟩
            · intro _
              rfl
          · intro st hvst hlt
            injection hvst with he
            subst he
            exact absurd hlt (by omega)
        · rw [if_neg hz]
          refine ⟨trivial, ?_, ?_⟩
          · constructor
            · intro hc
              simp at hc
            · rintro (hc | ⟨st, hc, hle⟩)
              · simp at hc
              · injection hc with he
                subst he
                exact absurd hle (by omega)
          · intro st hvst hlt
            injection hvst with he
            subst he
            rfl

/-- Witness for C8 (amended): a job that started at 2 and completed at 7
renders a 5 millisecond duration. -/
theorem duration_amended_witness :
    mapGet exC8w.jobs "k" = some exC8Job ∧
    (getJob exC8w "k" 100).map JobView.duration = some (some "5ms") ∧
    ((some "5ms" : Option String)
        = some (toString (exC8Job.completedAt.getD 100 - 2) ++ "ms")) := by
  have h := (duration_amended exC8w "k" 100).2
    { job := exC8Job, duration := some "5ms" } (by decide)
  exact ⟨h.1, by decide, h.2.2 2 rfl (by decide)⟩

end StyleCodeGen

